import Mathlib

/-!
# Verification of `boltons/pathutils.py`

A shallow embedding of the path-string utilities `augpath`, `shrinkuser`,
`expandpath` and `userhome` from `boltons/pathutils.py`, together with the
host `os.path` helpers they call (`split`, `join`, `splitext`, `normpath`,
`expanduser`, `expandvars`), modelled with POSIX path semantics
(separator `/`).  Paths are `List Char`; the process environment, the
account database and the filesystem-existence oracle are fields of an
explicit `Env` record.  Python exceptions are modelled by an error type
returned through `Except`.
-/

namespace Pathutils

/-- Python exceptions that `userhome` can raise:
`OSError("Cannot determine the user's home directory")` (win32 branch with no
usable environment variable), `KeyError('Unknown user: u')` (named-user
branches), and the bare `KeyError` that `pwd.getpwuid` raises when the
current uid has no account record (propagated uncaught on POSIX). -/
inductive PyError where
  | osErrorCannotDetermine : PyError
  | keyErrorUnknownUser : List Char → PyError
  | keyErrorGetpwuid : PyError
deriving DecidableEq, Repr

instance {ε α : Type} [DecidableEq ε] [DecidableEq α] :
    DecidableEq (Except ε α) := fun a b =>
  match a, b with
  | .ok x, .ok y => decidable_of_iff (x = y) (by simp)
  | .ok _, .error _ => isFalse (by simp)
  | .error _, .ok _ => isFalse (by simp)
  | .error e, .error f => decidable_of_iff (e = f) (by simp)

/-- The ambient process state consulted by `userhome`, `expanduser` and
`expandvars`: the environment-variable table, the `sys.platform`
win32 test, the account database (`pwd.getpwuid(os.getuid()).pw_dir` for the
current uid, and a username → `pw_dir` table for `pwd.getpwnam`), and the set
of paths for which `os.path.exists` answers true. -/
structure Env where
  environ : List (List Char × List Char)
  win32 : Bool
  pwUidDir : Option (List Char)
  pwNam : List (List Char × List Char)
  existing : List (List Char)

/-- `os.environ` lookup: `some v` when the variable is present (possibly with
an empty value), `none` when absent. -/
def getenv (env : Env) (k : List Char) : Option (List Char) :=
  env.environ.lookup k

/-- The character test for a path separator. -/
def isSep (c : Char) : Bool :=
  c = '/'

/-- The negated separator test, used to isolate the final path component. -/
def notSep (c : Char) : Bool :=
  ¬ (c = '/')

/-- The negated extension-separator test. -/
def notDot (c : Char) : Bool :=
  ¬ (c = '.')

/-- Neither a dot nor a separator, used by `splitext` to scan the extension
candidate from the right. -/
def notDotSep (c : Char) : Bool :=
  ¬ (c = '.' ∨ c = '/')

/-- The final path component: the characters after the last separator. -/
def splitTail (p : List Char) : List Char :=
  (p.reverse.takeWhile notSep).reverse

/-- Everything up to and including the last separator. -/
def splitHeadRaw (p : List Char) : List Char :=
  (p.reverse.dropWhile notSep).reverse

/-- `str.rstrip('/')`. -/
def rstripSep (h : List Char) : List Char :=
  (h.reverse.dropWhile isSep).reverse

/-- `os.path.split` (POSIX): the tail is everything after the last `/`; the
head is the rest, with trailing slashes stripped unless it consists of
slashes only. -/
def split (p : List Char) : List Char × List Char :=
  let h := splitHeadRaw p
  let head := if h ≠ [] ∧ ¬ (h.all isSep) then rstripSep h else h
  (head, splitTail p)

/-- `os.path.join` (POSIX) restricted to two arguments, as used by the
source: an absolute second argument replaces the first; otherwise a
separator is inserted unless the first part is empty or already ends in
one. -/
def join (a b : List Char) : List Char :=
  if b.head? = some '/' then b
  else if a = [] ∨ a.getLast? = some '/' then a ++ b
  else a ++ '/' :: b

/-- `os.path.dirname` (POSIX): the head of `split`. -/
def dirname (p : List Char) : List Char :=
  (split p).1

/-- `os.path.splitext` (POSIX): split at the last dot that lies after the
last separator, provided at least one non-dot character stands between that
separator and the dot (so leading dots of the filename never start an
extension). -/
def splitext (p : List Char) : List Char × List Char :=
  match p.reverse.dropWhile notDotSep with
  | c :: rest =>
      if c = '.' ∧ (rest.takeWhile notSep).any notDot then
        (rest.reverse, '.' :: (p.reverse.takeWhile notDotSep).reverse)
      else (p, [])
  | [] => (p, [])

/-- `fname.split('.', 1)` as used by `augpath` when `multidot` is true: the
base is everything before the first dot and the extension is everything from
the first dot onward (inclusive); a dot-free name has an empty extension. -/
def multidotSplit (fname : List Char) : List Char × List Char :=
  if fname.any (fun c => c = '.') then
    (fname.takeWhile notDot, fname.dropWhile notDot)
  else (fname, [])

/-- `augpath(path, suffix='', prefix='', ext=None, base=None, dpath=None,
multidot=False)`: break the path into `(dpath, base, ext)`, substitute any
override that is not `none`, and recombine as
`join(dpath, prefix + base + suffix + ext)`. -/
def augpath (path : List Char) (suffix pre : List Char)
    (ext base dpath : Option (List Char)) (multidot : Bool) : List Char :=
  let sp := split path
  let origDpath := sp.1
  let fname := sp.2
  let be := if multidot then multidotSplit fname else splitext fname
  let dpath' := dpath.getD origDpath
  let ext' := ext.getD be.2
  let base' := base.getD be.1
  let newFname := pre ++ base' ++ suffix ++ ext'
  join dpath' newFname

/-- `os.path.normpath` (POSIX): collapse `//` and `.` segments and resolve
`..` segments where possible, preserving one or exactly two leading
slashes. -/
def normpath (p : List Char) : List Char :=
  if p = [] then ['.']
  else
    let initSlashes : Nat :=
      if p.head? = some '/' then
        if p.take 2 = ['/', '/'] ∧ ¬ (p.take 3 = ['/', '/', '/']) then 2 else 1
      else 0
    let comps := p.splitOn '/'
    let newComps := comps.foldl (fun acc comp =>
      if comp = [] ∨ comp = ['.'] then acc
      else if ¬ (comp = ['.', '.']) ∨ (initSlashes = 0 ∧ acc = [])
          ∨ (acc.getLast? = some ['.', '.']) then acc ++ [comp]
      else if acc ≠ [] then acc.dropLast
      else acc) []
    let res := List.replicate initSlashes '/' ++ List.intercalate ['/'] newComps
    if res = [] then ['.'] else res

/-- `userhome(None)`, the current-user branch of `userhome`: the `HOME`
variable whenever it is present; otherwise on win32 `USERPROFILE`, then
`HOMEDRIVE`+`HOMEPATH`, then `OSError`; otherwise the account-database entry
for the current uid, whose absence raises `pwd`'s `KeyError`. -/
def userhomeCurrent (env : Env) : Except PyError (List Char) :=
  match getenv env "HOME".data with
  | some v => .ok v
  | none =>
    if env.win32 then
      match getenv env "USERPROFILE".data with
      | some v => .ok v
      | none =>
        match getenv env "HOMEPATH".data with
        | some hp => .ok (join ((getenv env "HOMEDRIVE".data).getD []) hp)
        | none => .error .osErrorCannotDetermine
    else
      match env.pwUidDir with
      | some d => .ok d
      | none => .error .keyErrorGetpwuid

/-- `userhome(username)`: the current user's home when `username` is `None`;
otherwise on win32 the sibling directory of the current home (failing with
`KeyError('Unknown user: ...')` when it does not exist), and on POSIX the
`pwd.getpwnam` record (same `KeyError` when the account is missing). -/
def userhome (env : Env) (username : Option (List Char)) :
    Except PyError (List Char) :=
  match username with
  | none => userhomeCurrent env
  | some u =>
    if env.win32 then
      match userhomeCurrent env with
      | .error e => .error e
      | .ok h =>
        let cUsers := dirname h
        let d := join cUsers u
        if env.existing.contains d then .ok d
        else .error (.keyErrorUnknownUser u)
    else
      match env.pwNam.lookup u with
      | some d => .ok d
      | none => .error (.keyErrorUnknownUser u)

/-- `shrinkuser(path, home='~')`: normalize the path, then replace an exact
or separator-bounded `userhome()` prefix by `home`; errors from `userhome`
propagate. -/
def shrinkuser (env : Env) (path home : List Char) :
    Except PyError (List Char) :=
  let q := normpath path
  match userhomeCurrent env with
  | .error e => .error e
  | .ok uh =>
    if uh.isPrefixOf q then
      if q.length = uh.length then .ok home
      else if q[uh.length]? = some '/' then .ok (home ++ q.drop uh.length)
      else .ok q
    else .ok q

/-- A word character of the `re.ASCII` pattern `\w`: ASCII letters, digits
and underscore. -/
def isWordChar (c : Char) : Bool :=
  c.isAlpha ∨ c.isDigit ∨ c = '_'

/-- The scanning loop of `posixpath.expandvars`: each `$name` or `${name}`
occurrence whose name is set in the environment is replaced by its value
(the substituted value is not rescanned); unset or malformed references are
left as literal text.  Every step consumes at least one character of the
remaining input, so a fuel equal to the input length makes the recursion
structural without changing the result. -/
def expandvarsAux (environ : List (List Char × List Char)) :
    Nat → List Char → List Char
  | _, [] => []
  | 0, l => l
  | fuel + 1, c :: rest =>
    if c = '$' then
      if rest.head? = some '{' then
        let rest2 := rest.tail
        if rest2.any (fun c2 => c2 = '}') then
          let name := rest2.takeWhile (fun c2 => ¬ (c2 = '}'))
          let rest3 := rest2.drop (name.length + 1)
          match environ.lookup name with
          | some v => v ++ expandvarsAux environ fuel rest3
          | none => '$' :: '{' :: (name ++ '}' :: expandvarsAux environ fuel rest3)
        else '$' :: '{' :: expandvarsAux environ fuel rest2
      else
        let name := rest.takeWhile isWordChar
        if name = [] then '$' :: expandvarsAux environ fuel rest
        else
          match environ.lookup name with
          | some v => v ++ expandvarsAux environ fuel (rest.drop name.length)
          | none => '$' :: (name ++ expandvarsAux environ fuel (rest.drop name.length))
    else c :: expandvarsAux environ fuel rest

/-- `os.path.expandvars` (POSIX): no-op when the path holds no `$`,
otherwise the scanning loop. -/
def expandvars (env : Env) (path : List Char) : List Char :=
  if path.any (fun c => c = '$') then
    expandvarsAux env.environ path.length path
  else path

/-- `os.path.expanduser` (POSIX): expand a leading `~` or `~user` to the
resolved home directory; every failing lookup is caught and the path is
returned unchanged. -/
def expanduser (env : Env) (path : List Char) : List Char :=
  if ¬ (path.head? = some '~') then path
  else
    let i := match (path.drop 1).findIdx? (fun c => c = '/') with
      | some j => j + 1
      | none => path.length
    let uh? : Option (List Char) :=
      if i = 1 then
        match getenv env "HOME".data with
        | some v => some v
        | none => env.pwUidDir
      else env.pwNam.lookup ((path.take i).drop 1)
    match uh? with
    | none => path
    | some uh =>
      let uh' := (uh.reverse.dropWhile (fun c => c = '/')).reverse
      let res := uh' ++ path.drop i
      if res = [] then ['/'] else res

/-- `expandpath(path)`: `expanduser` then `expandvars`. -/
def expandpath (env : Env) (path : List Char) : List Char :=
  expandvars env (expanduser env path)

/-- A POSIX process state whose `HOME` is `/home/user`. -/
def envPosixHome : Env :=
  ⟨[("HOME".data, "/home/user".data)], false, none, [], []⟩

/-- A POSIX process state whose `HOME` is present but empty, while the
account database records `/db/home` for the current uid. -/
def envEmptyHome : Env :=
  ⟨[("HOME".data, [])], false, some "/db/home".data, [], []⟩

/-- A POSIX process state with no environment variables and no account
record for the current uid. -/
def envPosixBare : Env :=
  ⟨[], false, none, [], []⟩

/-- A win32 process state with no environment variables at all. -/
def envWinBare : Env :=
  ⟨[], true, none, [], []⟩

/-- A POSIX process state with `HOME` set and an account record for user
`alice`. -/
def envPosixAlice : Env :=
  ⟨[("HOME".data, "/home/user".data)], false, none,
    [("alice".data, "/home/alice".data)], []⟩

/-- A win32 process state whose `HOME` is `/c/Users/me` and where the
sibling directory `/c/Users/bob` exists. -/
def envWinBob : Env :=
  ⟨[("HOME".data, "/c/Users/me".data)], true, none, [],
    ["/c/Users/bob".data]⟩

end Pathutils

namespace Pathutils

example : augpath "foo.bar".data [] [] none none none false = "foo.bar".data := by decide
example : augpath "foo.bar".data [] [] (some ".BAZ".data) none none false = "foo.BAZ".data := by decide
example : augpath "foo.bar".data "_".data [] none none none false = "foo_.bar".data := by decide
example : augpath "foo.bar".data [] "_".data none none none false = "_foo.bar".data := by decide
example : augpath "foo.bar".data [] [] none (some "baz".data) none false = "baz.bar".data := by decide
example : augpath "foo.tar.gz".data [] [] (some ".zip".data) none none true = "foo.zip".data := by decide
example : augpath "foo.tar.gz".data [] [] (some ".zip".data) none none false = "foo.tar.zip".data := by decide
example : augpath "foo.tar.gz".data "_new".data [] none none none true = "foo_new.tar.gz".data := by decide
example : augpath "a/b/c.txt".data [] [] none none none false = "a/b/c.txt".data := by decide
example : augpath "foo//bar".data [] [] none none none false = "foo/bar".data := by decide
example : splitext ".bashrc".data = (".bashrc".data, []) := by decide
example : multidotSplit ".bashrc".data = ([], ".bashrc".data) := by decide

example : normpath "a/./b//c".data = "a/b/c".data := by decide
example : normpath "".data = ".".data := by decide
example : normpath "a/b/../c".data = "a/c".data := by decide
example : normpath "/../a".data = "/a".data := by decide
example : normpath "../a".data = "../a".data := by decide
example : normpath "//a".data = "//a".data := by decide
example : normpath "///a".data = "/a".data := by decide

example : userhomeCurrent envPosixHome = .ok "/home/user".data := by decide
example : userhomeCurrent envEmptyHome = .ok [] := by decide
example : userhomeCurrent envPosixBare = .error .keyErrorGetpwuid := by decide
example : userhomeCurrent envWinBare = .error .osErrorCannotDetermine := by decide
example : userhome envPosixAlice (some "alice".data) = .ok "/home/alice".data := by decide
example : userhome envPosixAlice (some "bob".data)
    = .error (.keyErrorUnknownUser "bob".data) := by decide
example : userhome envWinBob (some "bob".data) = .ok "/c/Users/bob".data := by decide
example : userhome envWinBob (some "eve".data)
    = .error (.keyErrorUnknownUser "eve".data) := by decide

example : shrinkuser envPosixHome "/home/user".data "~".data = .ok "~".data := by decide
example : shrinkuser envPosixHome "/home/user1".data "~".data
    = .ok "/home/user1".data := by decide
example : shrinkuser envPosixHome "/home/user/1".data "~".data
    = .ok "~/1".data := by decide
example : shrinkuser envPosixHome "/home/user/1".data "$HOME".data
    = .ok "$HOME/1".data := by decide
example : shrinkuser envPosixHome "a//b".data "~".data = .ok "a/b".data := by decide
example : shrinkuser envPosixBare "a".data "~".data
    = .error .keyErrorGetpwuid := by decide

example : expandpath envPosixHome "~/foo".data = "/home/user/foo".data := by decide
example : expandpath envPosixHome "foo".data = "foo".data := by decide
example : expandpath envPosixHome "$HOME/x".data = "/home/user/x".data := by decide
example : expandpath envPosixHome "${HOME}/x".data = "/home/user/x".data := by decide
example : expandpath envPosixHome "$UNSET/x".data = "$UNSET/x".data := by decide
example : expandpath envPosixBare "~/x".data = "~/x".data := by decide
example : expandpath envPosixAlice "~alice/x".data = "/home/alice/x".data := by decide

/-! ## Structural lemmas about the path helpers -/

theorem takeWhile_append_of_all {α : Type} {p : α → Bool} {l1 l2 : List α}
    (h : ∀ a ∈ l1, p a = true) :
    (l1 ++ l2).takeWhile p = l1 ++ l2.takeWhile p := by
  rw [List.takeWhile_append, List.takeWhile_eq_self_iff.2 h]
  simp

theorem dropWhile_append_of_all {α : Type} {p : α → Bool} {l1 l2 : List α}
    (h : ∀ a ∈ l1, p a = true) :
    (l1 ++ l2).dropWhile p = l2.dropWhile p := by
  rw [List.dropWhile_append]
  have h2 : l1.dropWhile p = [] := by
    induction l1 with
    | nil => rfl
    | cons a l ih =>
      rw [List.dropWhile_cons_of_pos (h a (List.mem_cons_self a l))]
      exact ih fun x hx => h x (List.mem_cons_of_mem a hx)
  simp [h2]

theorem splitHeadRaw_append_splitTail (p : List Char) :
    splitHeadRaw p ++ splitTail p = p := by
  simp only [splitHeadRaw, splitTail]
  rw [← List.reverse_append, List.takeWhile_append_dropWhile, List.reverse_reverse]

theorem splitTail_no_sep (p : List Char) : ∀ c ∈ splitTail p, ¬ (c = '/') := by
  intro c hc
  rw [splitTail, List.mem_reverse] at hc
  have := List.mem_takeWhile_imp hc
  simpa [notSep] using this

theorem splitext_lossless (f : List Char) :
    (splitext f).1 ++ (splitext f).2 = f := by
  have hsd := List.takeWhile_append_dropWhile notDotSep f.reverse
  simp only [splitext]
  split
  next c rest heq =>
    split
    next hcond =>
      obtain ⟨hc, -⟩ := hcond
      subst hc
      have hrev : f.reverse.takeWhile notDotSep ++ '.' :: rest = f.reverse := by
        rw [heq] at hsd
        exact hsd
      calc rest.reverse ++ '.' :: (f.reverse.takeWhile notDotSep).reverse
          = (f.reverse.takeWhile notDotSep ++ '.' :: rest).reverse := by
            simp [List.reverse_append]
        _ = f := by rw [hrev, List.reverse_reverse]
    next => simp
  next => simp

theorem multidotSplit_lossless (f : List Char) :
    (multidotSplit f).1 ++ (multidotSplit f).2 = f := by
  simp only [multidotSplit]
  split
  · exact List.takeWhile_append_dropWhile _ _
  · simp

/-- `multidotSplit` splits at the first dot: everything before the first dot
is the base, everything from the first dot onward (inclusive) is the
extension. -/
theorem multidotSplit_first_dot (f b e : List Char) (hfe : f = b ++ '.' :: e)
    (hb : ∀ c ∈ b, ¬ (c = '.')) :
    multidotSplit f = (b, '.' :: e) := by
  have hb' : ∀ c ∈ b, notDot c = true := by
    intro c hc
    simp [notDot, hb c hc]
  have hdotf : f.any (fun c => c = '.') = true := by
    subst hfe
    refine List.any_eq_true.2 ⟨'.', ?_, by simp⟩
    exact List.mem_append.2 (Or.inr (List.mem_cons_self _ _))
  have hnd : notDot '.' ≠ true := by simp [notDot]
  subst hfe
  rw [multidotSplit, if_pos hdotf, takeWhile_append_of_all hb',
    dropWhile_append_of_all hb', List.takeWhile_cons_of_neg hnd,
    List.dropWhile_cons_of_neg hnd, List.append_nil]

/-- `splitext` splits at the last dot: when the name has the form
`b ++ "." ++ e` with a dot-free `e`, no separator anywhere, and at least one
non-dot character in `b`, the extension is `"." ++ e`. -/
theorem splitext_last_dot (f b e : List Char) (hfe : f = b ++ '.' :: e)
    (hsl : ∀ c ∈ f, ¬ (c = '/')) (he : ∀ c ∈ e, ¬ (c = '.'))
    (hb : ∃ c ∈ b, ¬ (c = '.')) :
    splitext f = (b, '.' :: e) := by
  have heq : ∀ c ∈ e.reverse, notDotSep c = true := by
    intro c hc
    rw [List.mem_reverse] at hc
    have hcf : c ∈ f := by
      subst hfe
      exact List.mem_append.2 (Or.inr (List.mem_cons_of_mem _ hc))
    simp [notDotSep, he c hc, hsl c hcf]
  have hrev : f.reverse = e.reverse ++ '.' :: b.reverse := by
    subst hfe
    simp
  have hnds : notDotSep '.' ≠ true := by simp [notDotSep]
  have hdrop : f.reverse.dropWhile notDotSep = '.' :: b.reverse := by
    rw [hrev, dropWhile_append_of_all heq, List.dropWhile_cons_of_neg hnds]
  have htake : f.reverse.takeWhile notDotSep = e.reverse := by
    rw [hrev, takeWhile_append_of_all heq, List.takeWhile_cons_of_neg hnds,
      List.append_nil]
  have hbsl : ∀ c ∈ b.reverse, notSep c = true := by
    intro c hc
    rw [List.mem_reverse] at hc
    have hcf : c ∈ b ++ '.' :: e := List.mem_append.2 (Or.inl hc)
    rw [← hfe] at hcf
    simp [notSep, hsl c hcf]
  have hany : (b.reverse.takeWhile notSep).any notDot = true := by
    rw [List.takeWhile_eq_self_iff.2 hbsl]
    obtain ⟨c, hc, hcd⟩ := hb
    exact List.any_eq_true.2 ⟨c, List.mem_reverse.2 hc, by simp [notDot, hcd]⟩
  simp only [splitext, hdrop, htake]
  simp [hany]

theorem splitTail_head_ne_sep (p : List Char) :
    (splitTail p).head? ≠ some '/' := by
  cases ht : splitTail p with
  | nil => simp
  | cons c t =>
    simp only [List.head?_cons, ne_eq, Option.some.injEq]
    intro hc
    exact splitTail_no_sep p c (ht ▸ List.mem_cons_self c t) hc

/-- Joining the two halves of `split` restores the path whenever the path
has no two adjacent separators; a doubled separator before the basename is
collapsed by the `rstrip`/`join` pair. -/
theorem join_split (p : List Char) (hnd : ¬ (['/', '/'] <:+: p)) :
    join (split p).1 (split p).2 = p := by
  have hdecomp := splitHeadRaw_append_splitTail p
  have htailhead := splitTail_head_ne_sep p
  cases hdw : p.reverse.dropWhile notSep with
  | nil =>
    have hraw : splitHeadRaw p = [] := by simp [splitHeadRaw, hdw]
    have hsplit : split p = ([], splitTail p) := by simp [split, hraw]
    have hp : splitTail p = p := by
      rw [hraw, List.nil_append] at hdecomp
      exact hdecomp
    rw [hsplit]
    simp only [join]
    split_ifs with h1 h2
    · exact hp
    · rw [List.nil_append]
      exact hp
    · simp at h2
  | cons c rh =>
    have hc : c = '/' := by
      have hh := List.head?_dropWhile_not notSep p.reverse
      rw [hdw] at hh
      simp only [List.head?_cons] at hh
      simpa [notSep] using hh
    subst hc
    have hraw : splitHeadRaw p = rh.reverse ++ ['/'] := by
      simp [splitHeadRaw, hdw]
    have hp : (rh.reverse ++ ['/']) ++ splitTail p = p := by
      rw [← hraw]
      exact hdecomp
    by_cases hall : (splitHeadRaw p).all isSep = true
    · have hrh : rh = [] := by
        cases hrh2 : rh with
        | nil => rfl
        | cons d rh2 =>
          exfalso
          have hd : isSep d = true := by
            refine List.all_eq_true.1 hall d ?_
            rw [hraw, hrh2]
            simp
          have hd' : d = '/' := by simpa [isSep] using hd
          subst hd'
          apply hnd
          have hp2 : p = rh2.reverse ++ ['/', '/'] ++ splitTail p := by
            conv_lhs => rw [← hp]
            rw [hrh2]
            simp
          rw [hp2]
          exact List.infix_append _ _ _
      have hsplit : split p = (splitHeadRaw p, splitTail p) := by
        simp [split, hall]
      have hraw2 : splitHeadRaw p = ['/'] := by
        rw [hraw, hrh]
        rfl
      rw [hsplit, hraw2]
      simp only [join]
      split_ifs with h1 h2
      · exact absurd h1 htailhead
      · rw [hrh] at hp
        simpa using hp
      · simp at h2
    · have hne : splitHeadRaw p ≠ [] := by
        rw [hraw]
        simp
      have hsplit : split p = (rstripSep (splitHeadRaw p), splitTail p) := by
        simp only [split]
        rw [if_pos ⟨hne, hall⟩]
      cases hrh2 : rh with
      | nil =>
        exfalso
        apply hall
        rw [hraw, hrh2]
        simp [isSep]
      | cons d rh2 =>
        have hd : ¬ (d = '/') := by
          intro hd
          subst hd
          apply hnd
          have hp2 : p = rh2.reverse ++ ['/', '/'] ++ splitTail p := by
            conv_lhs => rw [← hp]
            rw [hrh2]
            simp
          rw [hp2]
          exact List.infix_append _ _ _
        have hstrip : rstripSep (splitHeadRaw p) = rh2.reverse ++ [d] := by
          rw [hraw, hrh2]
          show (((d :: rh2).reverse ++ ['/']).reverse.dropWhile isSep).reverse
              = rh2.reverse ++ [d]
          have h1 : ((d :: rh2).reverse ++ ['/']).reverse = '/' :: d :: rh2 := by
            simp
          rw [h1, List.dropWhile_cons_of_pos (by simp [isSep]),
            List.dropWhile_cons_of_neg (by simp [isSep, hd])]
          simp
        rw [hsplit, hstrip]
        simp only [join]
        split_ifs with h1 h2
        · exact absurd h1 htailhead
        · exfalso
          rcases h2 with h2 | h2
          · simp at h2
          · rw [List.getLast?_concat] at h2
            simp only [Option.some.injEq] at h2
            exact hd h2
        · conv_rhs => rw [← hp]
          rw [hrh2]
          simp

/-! ## C1: augpath with defaults -/

/-- C1 (counterexample): `augpath` with every override at its default does
not return the path verbatim when a doubled separator precedes the
basename: `split`/`join` collapse it. -/
theorem augpath_defaults_collapses_doubled_sep :
    augpath "foo//bar".data [] [] none none none false = "foo/bar".data
    ∧ "foo/bar".data ≠ "foo//bar".data := by
  constructor
  · rfl
  · decide

/-- C1 (amended): `augpath(p)` with every override at its default returns
`p` itself for every path with no two adjacent separators; in general it
returns `join(*split(p))`, which collapses separators doubled immediately
before the basename. -/
theorem augpath_defaults_identity (p : List Char)
    (hnd : ¬ (['/', '/'] <:+: p)) :
    augpath p [] [] none none none false = p := by
  show join (split p).1
      ([] ++ (splitext (split p).2).1 ++ [] ++ (splitext (split p).2).2) = p
  rw [List.nil_append, List.append_nil, splitext_lossless]
  exact join_split p hnd

theorem augpath_defaults_identity_witness :
    ¬ (['/', '/'] <:+: "pref/dir/file.txt".data)
    ∧ augpath "pref/dir/file.txt".data [] [] none none none false
      = "pref/dir/file.txt".data :=
  ⟨by decide, augpath_defaults_identity "pref/dir/file.txt".data (by decide)⟩

/-! ## C2: the two extension-splitting modes -/

/-- C2: `augpath` splits the filename at the last dot when `multidot` is
false (provided a non-dot character precedes that dot, the host
`splitext` convention) and at the first dot when `multidot` is true, with
everything from the first dot onward, inclusive, becoming the extension;
in particular the two documented `foo.tar.gz` re-extension examples hold. -/
theorem augpath_extension_split_modes :
    (∀ p b e, (split p).2 = b ++ '.' :: e → (∀ c ∈ b, ¬ (c = '.')) →
      multidotSplit (split p).2 = (b, '.' :: e))
    ∧ (∀ p b e, (split p).2 = b ++ '.' :: e → (∀ c ∈ e, ¬ (c = '.')) →
      (∃ c ∈ b, ¬ (c = '.')) →
      splitext (split p).2 = (b, '.' :: e))
    ∧ augpath "foo.tar.gz".data [] [] (some ".zip".data) none none true
      = "foo.zip".data
    ∧ augpath "foo.tar.gz".data [] [] (some ".zip".data) none none false
      = "foo.tar.zip".data := by
  refine ⟨?_, ?_, rfl, rfl⟩
  · intro p b e hfe hb
    exact multidotSplit_first_dot _ b e hfe hb
  · intro p b e hfe he hb
    exact splitext_last_dot _ b e hfe (fun c hc => splitTail_no_sep p c hc) he hb

theorem augpath_extension_split_modes_witness :
    multidotSplit (split "foo.tar.gz".data).2 = ("foo".data, ".tar.gz".data)
    ∧ splitext (split "foo.tar.gz".data).2 = ("foo.tar".data, ".gz".data) :=
  ⟨augpath_extension_split_modes.1 "foo.tar.gz".data "foo".data "tar.gz".data
      (by decide) (by decide),
   augpath_extension_split_modes.2.1 "foo.tar.gz".data "foo.tar".data "gz".data
      (by decide) (by decide) ⟨'f', by decide, by decide⟩⟩

/-! ## C3: filenames with a single leading dot -/

/-- C3 (counterexample): with `multidot` true a leading-dot name such as
`.bashrc` is NOT split like the host `splitext` (whole name as base, no
extension): the leading dot is the first dot, so the base is empty and the
whole name becomes the extension, observably so through `augpath`'s suffix
placement. -/
theorem multidot_leading_dot_differs :
    multidotSplit ".bashrc".data = ([], ".bashrc".data)
    ∧ multidotSplit ".bashrc".data ≠ (".bashrc".data, ([] : List Char))
    ∧ augpath ".bashrc".data "_v2".data [] none none none true
      = "_v2.bashrc".data
    ∧ augpath ".bashrc".data "_v2".data [] none none none false
      = ".bashrc_v2".data := by
  refine ⟨rfl, by decide, rfl, rfl⟩

/-- C3 (amended): a filename consisting of a leading dot and no other dot
splits with no extension and the whole name as base only when `multidot` is
false (the host `splitext` convention); when `multidot` is true the base is
empty and the whole name is the extension. -/
theorem leading_dot_split_modes (f e : List Char) (hfe : f = '.' :: e)
    (he : ∀ c ∈ e, ¬ (c = '.')) (hs : ∀ c ∈ e, ¬ (c = '/')) :
    splitext f = (f, []) ∧ multidotSplit f = ([], f) := by
  constructor
  · have heq : ∀ c ∈ e.reverse, notDotSep c = true := by
      intro c hc
      rw [List.mem_reverse] at hc
      simp [notDotSep, he c hc, hs c hc]
    have hnds : notDotSep '.' ≠ true := by simp [notDotSep]
    have hrev : f.reverse = e.reverse ++ ['.'] := by
      subst hfe
      simp
    have hdrop : f.reverse.dropWhile notDotSep = ['.'] := by
      rw [hrev, dropWhile_append_of_all heq, List.dropWhile_cons_of_neg hnds]
    simp only [splitext, hdrop]
    simp
  · subst hfe
    exact (multidotSplit_first_dot ('.' :: e) [] e rfl (by simp)).trans
      (by simp)

theorem leading_dot_split_modes_witness :
    splitext ".bashrc".data = (".bashrc".data, [])
    ∧ multidotSplit ".bashrc".data = ([], ".bashrc".data) :=
  leading_dot_split_modes ".bashrc".data "bashrc".data rfl
    (by decide) (by decide)

/-! ## C9: the ext override is used verbatim -/

/-- C9: the `ext` override is spliced in verbatim — the rebuilt filename is
the original stem followed by exactly `e`, with no dot inserted; in
particular `augpath("foo.bar", ext="baz")` is `"foobaz"`, not `"foo.baz"`,
so the caller must include the leading dot. -/
theorem augpath_ext_verbatim :
    (∀ p e md, ∃ stem old, (split p).2 = stem ++ old ∧
      augpath p [] [] (some e) none none md = join (split p).1 (stem ++ e))
    ∧ augpath "foo.bar".data [] [] (some "baz".data) none none false
      = "foobaz".data
    ∧ "foobaz".data ≠ "foo.baz".data := by
  refine ⟨?_, rfl, by decide⟩
  intro p e md
  cases md with
  | true =>
    refine ⟨(multidotSplit (split p).2).1, (multidotSplit (split p).2).2,
      (multidotSplit_lossless _).symm, ?_⟩
    show join (split p).1
        ([] ++ (multidotSplit (split p).2).1 ++ [] ++ e) = _
    rw [List.nil_append, List.append_nil]
  | false =>
    refine ⟨(splitext (split p).2).1, (splitext (split p).2).2,
      (splitext_lossless _).symm, ?_⟩
    show join (split p).1
        ([] ++ (splitext (split p).2).1 ++ [] ++ e) = _
    rw [List.nil_append, List.append_nil]

/-! ## C5: failure of current-user home resolution -/

/-- C5 (counterexample): on POSIX with `HOME` unset and no account record
for the current uid, `userhome()` propagates `pwd.getpwuid`'s bare
`KeyError`, which is not the `OSError("Cannot determine the user's home
directory")` that the spec's `ResolutionError` names. -/
theorem userhomeCurrent_posix_bare_raises_keyError :
    userhomeCurrent envPosixBare = .error .keyErrorGetpwuid
    ∧ PyError.keyErrorGetpwuid ≠ PyError.osErrorCannotDetermine := by
  constructor
  · rfl
  · decide

/-- C5 (amended): with `HOME` absent, the win32 branch raises the
"cannot determine" `OSError` once `USERPROFILE` and `HOMEPATH` are also
absent, while the POSIX branch propagates the account database's `KeyError`
when the current uid has no record. -/
theorem userhomeCurrent_unresolvable (env : Env)
    (hhome : getenv env "HOME".data = none) :
    (env.win32 = true → getenv env "USERPROFILE".data = none →
      getenv env "HOMEPATH".data = none →
      userhomeCurrent env = .error .osErrorCannotDetermine)
    ∧ (env.win32 = false → env.pwUidDir = none →
      userhomeCurrent env = .error .keyErrorGetpwuid) := by
  constructor
  · intro hw hup hhp
    simp only [userhomeCurrent, hhome, hw, hup, hhp, if_true]
  · intro hw hd
    simp only [userhomeCurrent, hhome, hw, hd]
    simp

theorem userhomeCurrent_unresolvable_witness :
    userhomeCurrent envWinBare = .error .osErrorCannotDetermine :=
  (userhomeCurrent_unresolvable envWinBare rfl).1 rfl rfl rfl

/-! ## C6: named-user home resolution -/

/-- C6: with a username given, `userhome` fails with
`KeyError('Unknown user: ...')` exactly when the user cannot be resolved —
on POSIX when the account database has no record for the name, on win32
(granting that the current user's home resolves) when the sibling directory
`join(dirname(userhome()), username)` does not exist — and otherwise
returns the recorded (POSIX) or constructed (win32) home directory. -/
theorem userhome_named_characterization (env : Env) (u : List Char) :
    (env.win32 = false →
      ((userhome env (some u) = .error (.keyErrorUnknownUser u))
          ↔ env.pwNam.lookup u = none)
      ∧ ∀ d, env.pwNam.lookup u = some d → userhome env (some u) = .ok d)
    ∧ (env.win32 = true → ∀ h, userhomeCurrent env = .ok h →
      ((userhome env (some u) = .error (.keyErrorUnknownUser u))
          ↔ env.existing.contains (join (dirname h) u) = false)
      ∧ (env.existing.contains (join (dirname h) u) = true →
          userhome env (some u) = .ok (join (dirname h) u))) := by
  constructor
  · intro hw
    constructor
    · cases hl : env.pwNam.lookup u with
      | none => simp [userhome, hw, hl]
      | some d => simp [userhome, hw, hl]
    · intro d hl
      simp [userhome, hw, hl]
  · intro hw h hcur
    constructor
    · cases hex : env.existing.contains (join (dirname h) u) with
      | true =>
        simp [userhome, hw, hcur, hex]
        simpa using hex
      | false =>
        simp [userhome, hw, hcur, hex]
        simpa using hex
    · intro hex
      simp [userhome, hw, hcur, hex]
      simpa using hex

theorem userhome_named_characterization_witness :
    userhome envPosixAlice (some "alice".data) = .ok "/home/alice".data ∧
    userhome envWinBob (some "bob".data) = .ok "/c/Users/bob".data :=
  ⟨((userhome_named_characterization envPosixAlice "alice".data).1 rfl).2
      "/home/alice".data rfl,
   ((userhome_named_characterization envWinBob "bob".data).2 rfl
      "/c/Users/me".data rfl).2 rfl⟩

/-! ## C7: treatment of the HOME environment variable -/

/-- C7 (counterexample): a `HOME` that is present but empty is used as the
result; the code does not fall through to the account database, whose
record for the current uid is `/db/home` here. -/
theorem userhomeCurrent_empty_home_used :
    userhomeCurrent envEmptyHome = .ok []
    ∧ envEmptyHome.pwUidDir = some "/db/home".data
    ∧ userhomeCurrent envEmptyHome ≠ .ok "/db/home".data := by
  refine ⟨rfl, rfl, ?_⟩
  decide

/-- C7 (amended): for the current user, `userhome` returns the value of
`HOME` whenever the variable is present in the environment — even when that
value is empty; only an absent `HOME` reaches the platform fallbacks. -/
theorem userhomeCurrent_home_verbatim (env : Env) (v : List Char)
    (hhome : getenv env "HOME".data = some v) :
    userhomeCurrent env = .ok v := by
  simp only [userhomeCurrent, hhome]

theorem userhomeCurrent_home_verbatim_witness :
    userhomeCurrent envEmptyHome = .ok [] :=
  userhomeCurrent_home_verbatim envEmptyHome [] rfl

/-! ## C4 and C10: shrinkuser prefix replacement and normalization -/

theorem isPrefixOfIff {l1 l2 : List Char} :
    l1.isPrefixOf l2 = true ↔ l1 <+: l2 :=
  List.isPrefixOf_iff_prefix

theorem shrinkuser_ok (env : Env) (p home h : List Char)
    (hh : userhomeCurrent env = .ok h) :
    shrinkuser env p home = .ok (
      if h.isPrefixOf (normpath p) then
        if (normpath p).length = h.length then home
        else if (normpath p)[h.length]? = some '/' then
          home ++ (normpath p).drop h.length
        else normpath p
      else normpath p) := by
  simp only [shrinkuser, hh]
  split_ifs <;> rfl

theorem shrinkuser_no_shrink (env : Env) (p home h : List Char)
    (hh : userhomeCurrent env = .ok h) (hne : normpath p ≠ h)
    (hpre : (h ++ ['/']).isPrefixOf (normpath p) = false) :
    shrinkuser env p home = .ok (normpath p) := by
  rw [shrinkuser_ok env p home h hh]
  congr 1
  by_cases hp : h.isPrefixOf (normpath p)
  · obtain ⟨t, ht⟩ := isPrefixOfIff.1 hp
    rw [if_pos hp]
    have hlen : ¬ ((normpath p).length = h.length) := by
      intro hlen
      exact hne (List.IsPrefix.eq_of_length ⟨t, ht⟩ hlen.symm).symm
    rw [if_neg hlen]
    have hget : ¬ ((normpath p)[h.length]? = some '/') := by
      intro hget
      rw [← ht, List.getElem?_append_right (Nat.le_refl _)] at hget
      simp only [Nat.sub_self] at hget
      cases t with
      | nil => simp at hget
      | cons c t2 =>
        simp only [List.getElem?_cons_zero, Option.some.injEq] at hget
        subst hget
        have htrue : (h ++ ['/']).isPrefixOf (normpath p) = true := by
          refine isPrefixOfIff.2 ⟨t2, ?_⟩
          rw [← ht]
          simp
        rw [htrue] at hpre
        cases hpre
    rw [if_neg hget]
  · rw [if_neg hp]

/-- C4: `shrinkuser` first normalizes the path; an exact match with
`userhome()` becomes `home`, a match followed immediately by a separator
becomes `home` plus the remainder (keeping the leading separator), and
otherwise — including prefix collisions like `/home/user1` against home
`/home/user` — the (normalized) path is returned with no shrinking. -/
theorem shrinkuser_prefix_replacement (env : Env) (p home h : List Char)
    (hh : userhomeCurrent env = .ok h) :
    (normpath p = h → shrinkuser env p home = .ok home)
    ∧ (∀ rest, normpath p = h ++ '/' :: rest →
        shrinkuser env p home = .ok (home ++ '/' :: rest))
    ∧ (normpath p ≠ h → (h ++ ['/']).isPrefixOf (normpath p) = false →
        shrinkuser env p home = .ok (normpath p)) := by
  refine ⟨?_, ?_, fun hne hpre => shrinkuser_no_shrink env p home h hh hne hpre⟩
  · intro hq
    rw [shrinkuser_ok env p home h hh, hq,
      if_pos (isPrefixOfIff.2 (List.prefix_refl h)), if_pos rfl]
  · intro rest hq
    rw [shrinkuser_ok env p home h hh, hq]
    have hp1 : h.isPrefixOf (h ++ '/' :: rest) = true :=
      isPrefixOfIff.2 ⟨'/' :: rest, rfl⟩
    have hlen : ¬ ((h ++ '/' :: rest).length = h.length) := by simp
    have hget : (h ++ '/' :: rest)[h.length]? = some '/' := by
      rw [List.getElem?_append_right (Nat.le_refl _)]
      simp
    rw [if_pos hp1, if_neg hlen, if_pos hget, List.drop_left]

theorem shrinkuser_prefix_replacement_witness :
    shrinkuser envPosixHome "/home/user/docs".data "~".data = .ok "~/docs".data
    ∧ shrinkuser envPosixHome "/home/user1".data "~".data
      = .ok "/home/user1".data := by
  constructor
  · have h := (shrinkuser_prefix_replacement envPosixHome "/home/user/docs".data
      "~".data "/home/user".data rfl).2.1 "docs".data (by decide)
    exact h.trans (by decide)
  · have h := (shrinkuser_prefix_replacement envPosixHome "/home/user1".data
      "~".data "/home/user".data rfl).2.2 (by decide) (by decide)
    exact h.trans (by decide)

/-- C10: when no home-directory prefix matches, `shrinkuser` still returns
the normalized path, not the input verbatim: redundant separators and `.`
segments are collapsed, so `shrinkuser` is not the identity on such
inputs. -/
theorem shrinkuser_returns_normalized :
    (∀ env p home h, userhomeCurrent env = .ok h → normpath p ≠ h →
      (h ++ ['/']).isPrefixOf (normpath p) = false →
      shrinkuser env p home = .ok (normpath p))
    ∧ shrinkuser envPosixHome "a//./b".data "~".data = .ok "a/b".data
    ∧ "a/b".data ≠ "a//./b".data := by
  refine ⟨fun env p home h hh hne hpre =>
    shrinkuser_no_shrink env p home h hh hne hpre, ?_, by decide⟩
  have h := shrinkuser_no_shrink envPosixHome "a//./b".data "~".data
    "/home/user".data rfl (by decide) (by decide)
  exact h.trans (by decide)

theorem shrinkuser_returns_normalized_witness :
    shrinkuser envPosixHome "x//y".data "~".data = .ok "x/y".data := by
  have h := shrinkuser_returns_normalized.1 envPosixHome "x//y".data "~".data
    "/home/user".data rfl (by decide) (by decide)
  exact h.trans (by decide)

/-! ## C8: totality of augpath, shrinkuser and expandpath -/

/-- C8 (counterexample): `shrinkuser` is not total in every environment —
with `HOME` unset and no account record for the current uid it propagates
`userhome`'s error. -/
theorem shrinkuser_raises_when_home_unresolvable :
    shrinkuser envPosixBare "a".data "~".data = .error .keyErrorGetpwuid := by
  rfl

/-- C8 (amended): `augpath` and `expandpath` are plain total functions on
strings (every account-database failure inside `expanduser` is caught and
leaves the path unchanged), but `shrinkuser` fails exactly when the home
directory cannot be resolved: it returns an error precisely when
`userhome()` does. -/
theorem shrinkuser_error_iff_userhome_error (env : Env) (p home : List Char) :
    (∃ e, shrinkuser env p home = .error e)
      ↔ (∃ e, userhomeCurrent env = .error e) := by
  constructor
  · rintro ⟨e, he⟩
    cases hcur : userhomeCurrent env with
    | error f => exact ⟨f, rfl⟩
    | ok uh =>
      exfalso
      simp only [shrinkuser, hcur] at he
      split at he
      · split at he
        · exact absurd he (by simp)
        · split at he
          · exact absurd he (by simp)
          · exact absurd he (by simp)
      · exact absurd he (by simp)
  · rintro ⟨e, he⟩
    exact ⟨e, by simp only [shrinkuser, he]⟩

end Pathutils
